import Mathlib

/-!
Verification of the steely debugging/observability library against its
natural-language specification.

The development shallowly embeds the parts of the code that the claims
are about:

* `steely/design/__init__.py` — `TypeColors.get_color`;
* `steely/scan/__init__.py` — `ScanPrinter._get_type_name`,
  `ScanPrinter._format_value`, `ScanPrinter.locals_snapshot`,
  `VariableTracker.trace_lines`, and the `scan` decorator's sync/async
  wrappers (their interaction with the global trace slot);
* `steely/cronos/__init__.py` — the `cronos` wrappers;
* `steely/logger/__init__.py` — the `log` decorator wrappers and the
  terminal-print condition of `Logger.log`;
* `steely/fastapi/recorder/postman.py` — `PostmanRecorder.record_request`
  and the signature manipulation done by the `postman` decorator.

Python runtime values are modelled by the inductive type `PyVal`.
Strings whose length matters (Python `len` counts code points) are
modelled as `List Char`; machine-irrelevant float values carry their
display literal.  Python dicts are modelled as insertion-ordered
association lists, which is exactly the observable behaviour of CPython
dicts (`items()` iterates in insertion order, updating an existing key
keeps its position, a new key is appended).
-/

/-- Model of a Python runtime value, covering the type categories the
scan formatter distinguishes.  `vFloat` carries its display literal
(float arithmetic is never performed by the code under verification);
dict keys are modelled as strings (only the entry count is observable
in the formatter).  `vObj` carries the defining module and the bare
class name so that the bare `type(value).__name__` used by the code can
be distinguished from a module-qualified name. -/
inductive PyVal where
  | vInt (n : Int)
  | vBool (b : Bool)
  | vFloat (lit : String)
  | vStr (s : String)
  | vNone
  | vList (xs : List PyVal)
  | vDict (kvs : List (String × PyVal))
  | vTuple (xs : List PyVal)
  | vSet (xs : List PyVal)
  | vFrozenset (xs : List PyVal)
  | vFunc (name : String)
  | vObj (module : String) (typeName : String)

/-- Python `type(value).__name__` for the modelled values. -/
def PyVal.pyTypeName : PyVal → String
  | .vInt _ => "int"
  | .vBool _ => "bool"
  | .vFloat _ => "float"
  | .vStr _ => "str"
  | .vNone => "NoneType"
  | .vList _ => "list"
  | .vDict _ => "dict"
  | .vTuple _ => "tuple"
  | .vSet _ => "set"
  | .vFrozenset _ => "frozenset"
  | .vFunc _ => "function"
  | .vObj _ t => t

/-- The coarse type buckets tested by `isinstance` checks in the code. -/
inductive PyKind where
  | kBool | kInt | kFloat | kStr | kList | kDict | kTuple | kSet | kFrozenset
  deriving DecidableEq

/-- Python `isinstance(value, kind)`.  The one semantic subtlety the
code comments rely on is preserved: `bool` is a subclass of `int`, so a
boolean is an instance of both `kBool` and `kInt`. -/
def PyVal.pyIsInstance : PyVal → PyKind → Bool
  | .vBool _, .kBool => true
  | .vBool _, .kInt => true
  | .vInt _, .kInt => true
  | .vFloat _, .kFloat => true
  | .vStr _, .kStr => true
  | .vList _, .kList => true
  | .vDict _, .kDict => true
  | .vTuple _, .kTuple => true
  | .vSet _, .kSet => true
  | .vFrozenset _, .kFrozenset => true
  | _, _ => false

/-- Python `value is None`. -/
def PyVal.pyIsNone : PyVal → Bool
  | .vNone => true
  | _ => false

/-- Python `callable(value)` for the modelled values. -/
def PyVal.pyCallable : PyVal → Bool
  | .vFunc _ => true
  | _ => false

/-- Python `len(value)` for the container values (only containers reach
a `len` call in the code). -/
def PyVal.pyLen : PyVal → Nat
  | .vStr s => s.length
  | .vList xs => xs.length
  | .vDict kvs => kvs.length
  | .vTuple xs => xs.length
  | .vSet xs => xs.length
  | .vFrozenset xs => xs.length
  | _ => 0

namespace TypeColors

/-- ANSI escapes from `steely/design/__init__.py` (class `TypeColors`). -/
def INT : String := "\x1b[38;5;39m"

def FLOAT : String := "\x1b[38;5;33m"

def STR : String := "\x1b[38;5;208m"

def BOOL : String := "\x1b[38;5;164m"

def NONE : String := "\x1b[38;5;245m"

def LIST : String := "\x1b[38;5;78m"

def DICT : String := "\x1b[38;5;220m"

def TUPLE : String := "\x1b[38;5;141m"

def SET : String := "\x1b[38;5;204m"

def CALLABLE : String := "\x1b[38;5;123m"

def CLASS : String := "\x1b[38;5;183m"

def DEFAULT : String := "\x1b[38;5;252m"

/-- `TypeColors.get_color` (design/__init__.py lines 224-278): the
sequential `isinstance` dispatch, in source order — `None` first, then
`bool` strictly before `int`. -/
def get_color (value : PyVal) : String :=
  if value.pyIsNone then NONE
  else if value.pyIsInstance .kBool then BOOL
  else if value.pyIsInstance .kInt then INT
  else if value.pyIsInstance .kFloat then FLOAT
  else if value.pyIsInstance .kStr then STR
  else if value.pyIsInstance .kList then LIST
  else if value.pyIsInstance .kDict then DICT
  else if value.pyIsInstance .kTuple then TUPLE
  else if value.pyIsInstance .kSet then SET
  else if value.pyCallable then CALLABLE
  else CLASS

end TypeColors

namespace ScanPrinter

/-- The Unicode ellipsis glyph `Symbols.ELLIPSIS` from
`steely/design/__init__.py`. -/
def ELLIPSIS : Char := Char.ofNat 0x2026

/-- `ScanPrinter._get_type_name` (scan/__init__.py lines 186-208):
`t = type(value).__name__`; list/tuple/set/frozenset render `t[len]`,
dict renders `t{len}`, str renders `t[len]`, everything else the bare
type name. -/
def get_type_name (value : PyVal) : String :=
  let t := value.pyTypeName
  if value.pyIsInstance .kList || value.pyIsInstance .kTuple
      || value.pyIsInstance .kSet || value.pyIsInstance .kFrozenset then
    t ++ "[" ++ toString value.pyLen ++ "]"
  else if value.pyIsInstance .kDict then
    t ++ "\x7b" ++ toString value.pyLen ++ "\x7d"
  else if value.pyIsInstance .kStr then
    t ++ "[" ++ toString value.pyLen ++ "]"
  else t

/-- Comma-join used by the container `repr` forms below. -/
def joinComma (xs : List (List Char)) : List Char :=
  match xs with
  | [] => []
  | [x] => x
  | x :: rest => x ++ (", ".data ++ joinComma rest)

/-- Python `repr(value)` for the modelled values, as a list of code
points (Python `len` on the result counts code points).  String quote
escaping is elided: a `vStr` is rendered between two single quotes.
The exact characters produced are irrelevant to the truncation claims,
which hold for every character list. -/
def pyRepr : PyVal → List Char
  | .vInt n => (toString n).data
  | .vBool true => "True".data
  | .vBool false => "False".data
  | .vFloat lit => lit.data
  | .vStr s => Char.ofNat 39 :: s.data ++ [Char.ofNat 39]
  | .vNone => "None".data
  | .vList xs =>
      Char.ofNat 91 :: joinComma (xs.attach.map (fun x => pyRepr x.1)) ++ [Char.ofNat 93]
  | .vDict kvs =>
      Char.ofNat 123 ::
        joinComma (kvs.attach.map (fun kv =>
          (Char.ofNat 39 :: kv.1.1.data ++ [Char.ofNat 39]) ++ ": ".data ++ pyRepr kv.1.2))
        ++ [Char.ofNat 125]
  | .vTuple xs =>
      Char.ofNat 40 :: joinComma (xs.attach.map (fun x => pyRepr x.1))
        ++ (if xs.length = 1 then ",)".data else [Char.ofNat 41])
  | .vSet xs =>
      if xs.isEmpty then "set()".data
      else Char.ofNat 123 :: joinComma (xs.attach.map (fun x => pyRepr x.1)) ++ [Char.ofNat 125]
  | .vFrozenset xs =>
      "frozenset(".data ++ Char.ofNat 123 ::
        joinComma (xs.attach.map (fun x => pyRepr x.1)) ++ [Char.ofNat 125, Char.ofNat 41]
  | .vFunc name => "<function ".data ++ name.data ++ [Char.ofNat 62]
  | .vObj m t => Char.ofNat 60 :: m.data ++ [Char.ofNat 46] ++ t.data ++ " object>".data
  termination_by v => sizeOf v
  decreasing_by
    all_goals simp_wf
    all_goals first
      | (have h := List.sizeOf_lt_of_mem x.2; omega)
      | (have h := List.sizeOf_lt_of_mem kv.2
         have h2 : sizeOf kv.1.2 < sizeOf kv.1 := by cases kv.1; simp
         omega)

/-- Python slicing `s[:i]` on a character list, including the
negative-index semantics: a negative `i` counts from the end
(`s[:-1]` drops the last character; an `i` at or below `-len` yields
the empty list). -/
def pySliceTo (s : List Char) (i : Int) : List Char :=
  if i < 0 then s.take ((s.length : Int) + i).toNat
  else s.take i.toNat

/-- `ScanPrinter._format_value` (scan/__init__.py lines 164-184):
`repr_val = repr(value); if len(repr_val) > max_len: repr_val =
repr_val[:max_len - 1] + ELLIPSIS`.  `max_len` is a Python int, so the
slice index `max_len - 1` can be negative. -/
def format_value (value : PyVal) (max_len : Int := 40) : List Char :=
  let repr_val := pyRepr value
  if (repr_val.length : Int) > max_len then
    pySliceTo repr_val (max_len - 1) ++ [ELLIPSIS]
  else repr_val

end ScanPrinter

/-- A binding event emitted by the tracker: `('new', name, value, line)`
or `('change', name, old, new, line)` appended to `self.changes` and
rendered immediately (scan/__init__.py lines 476-491).  The value type
is a parameter: the tracker code only compares values with `is`/`!=`,
modelled by decidable equality. -/
inductive BindingEvent (V : Type) where
  | newVar (name : String) (value : V) (line : Nat)
  | change (name : String) (oldVal newVal : V) (line : Nat)
  deriving DecidableEq

/-- The name carried by a binding event. -/
def BindingEvent.name {V : Type} : BindingEvent V → String
  | .newVar n _ _ => n
  | .change n _ _ _ => n

/-- The line number carried by a binding event. -/
def BindingEvent.line {V : Type} : BindingEvent V → Nat
  | .newVar _ _ l => l
  | .change _ _ _ l => l

/-- A CPython frame's `f_locals`, modelled as an insertion-ordered
association list (CPython dicts iterate in insertion order). -/
abbrev PyLocals (V : Type) : Type := List (String × V)

/-- Python `name.startswith('_')`: the first character is an
underscore.  (Implemented on the character list so that it reduces by
computation; `String.startsWith` in Lean is defined by well-founded
recursion.) -/
def pyStartsWithUnderscore (s : String) : Bool :=
  match s.data with
  | [] => false
  | c :: _ => c = Char.ofNat 95

/-- Python `d[name]` lookup returning `None` when absent
(`name in d` / `d[name]` on the previous-locals dict). -/
def pyLookup {V : Type} (d : PyLocals V) (name : String) : Option V :=
  match d with
  | [] => none
  | (k, v) :: rest => if k = name then some v else pyLookup rest name

/-- Python `d[name] = value` on an insertion-ordered dict: updating an
existing key keeps its position, a new key is appended at the end. -/
def pyDictSet {V : Type} (d : PyLocals V) (name : String) (value : V) : PyLocals V :=
  match d with
  | [] => [(name, value)]
  | (k, v) :: rest =>
      if k = name then (k, value) :: rest else (k, v) :: pyDictSet rest name value

/-- The keys of a locals dict, in order. -/
def pyKeys {V : Type} (d : PyLocals V) : List String := d.map Prod.fst

/-- One `'line'`/`'return'` dispatch of `VariableTracker.trace_lines`
(scan/__init__.py lines 467-493): iterate over `current_locals.items()`
in dict order; skip names starting with `'_'`; a name absent from
`previous_locals` yields a `new` event; a present name whose value
differs yields a `change` event.  The Python guard
`old_val is not value and old_val != value` is modelled as value
inequality (`is` identity implies equality; the `except` fallback to a
pure identity check for values whose `!=` raises collapses in a model
with total decidable equality).  Events carry `frame.f_lineno` — the
line the frame is currently at when the step is observed. -/
def trace_lines_step {V : Type} [DecidableEq V]
    (previous_locals current_locals : PyLocals V) (line_no : Nat) :
    List (BindingEvent V) :=
  current_locals.filterMap (fun nv =>
    if pyStartsWithUnderscore nv.1 then none
    else
      match pyLookup previous_locals nv.1 with
      | none => some (.newVar nv.1 nv.2 line_no)
      | some old_val =>
          if old_val ≠ nv.2 then some (.change nv.1 old_val nv.2 line_no) else none)

/-- Run `trace_lines` over a sequence of observed steps, each a pair of
the frame's locals and current line number, starting from the empty
`previous_locals` installed by the `'call'` dispatch of
`trace_calls` (scan/__init__.py lines 432-435).  After each step the
current locals become the previous snapshot (line 493). -/
def traceRun {V : Type} [DecidableEq V]
    (previous_locals : PyLocals V) : List (PyLocals V × Nat) → List (BindingEvent V)
  | [] => []
  | (cur, l) :: rest => trace_lines_step previous_locals cur l ++ traceRun cur rest

/-- One local-variable assignment statement of a traced straight-line
function body: at source line `line`, bind `name` to `value`. -/
structure Stmt (V : Type) where
  line : Nat
  name : String
  value : V
  deriving DecidableEq

/-- The sequence of trace steps CPython delivers to the local trace
function for a straight-line function body followed by a `return`
statement at line `retLine`: a `'line'` event fires *before* each
statement executes, carrying the locals as they stand at that moment;
after the last statement a `'line'` event fires for the `return`
statement and then the `'return'` event fires, both with the final
locals.  (This before-execution timing is the documented behaviour of
the interpreter's line tracing and is what `trace_lines` observes.) -/
def pyStepEvents {V : Type} (locals_ : PyLocals V) :
    List (Stmt V) → Nat → List (PyLocals V × Nat)
  | [], retLine => [(locals_, retLine), (locals_, retLine)]
  | s :: rest, retLine =>
      (locals_, s.line) :: pyStepEvents (pyDictSet locals_ s.name s.value) rest retLine

/-- All binding events emitted during one traced call of a
straight-line function: parameters `params` are bound on entry, the
body statements execute in order, and `trace_lines` (armed by the
`scan` decorator) observes every step. -/
def scanEvents {V : Type} [DecidableEq V]
    (params : PyLocals V) (body : List (Stmt V)) (retLine : Nat) :
    List (BindingEvent V) :=
  traceRun [] (pyStepEvents params body retLine)

/-- The filter applied by `ScanPrinter.locals_snapshot`
(scan/__init__.py lines 302-304): keep entries whose name does not
start with `'_'` and is neither `'self'` nor `'cls'`. -/
def locals_snapshot_filter {V : Type} (local_vars : PyLocals V) : PyLocals V :=
  local_vars.filter (fun kv =>
    !pyStartsWithUnderscore kv.1 && !(kv.1 = "self" || kv.1 = "cls"))

/-- The `scan` decorator's `sync_wrapper` (scan/__init__.py lines
637-662), modelled by its interaction with the global trace slot
(`sys.gettrace`/`sys.settrace`) and the wrapped call's outcome.  The
slot holds an optional trace function of abstract type `T`.  The body
is a function of the slot (a nested `scan` call inside the body reads
and rewrites the slot) returning its outcome — `Except.ok` a result or
`Except.error` a raised exception — together with the slot it leaves
behind.  The model returns the wrapper's outcome, the final slot value
after the `finally` block, and the chronological list of `settrace`
calls the wrapper itself performs. -/
def scan.sync_wrapper {T E A : Type} (slot : Option T) (tracker : T)
    (body : Option T → Except E A × Option T) :
    Except E A × Option T × List (Option T) :=
  let old_trace := slot
  let afterInstall : Option T := some tracker
  let (result, _slotAfterBody) := body afterInstall
  let afterFinally := old_trace
  (result, afterFinally, [afterInstall, old_trace])

/-- The `scan` decorator's `async_wrapper` (scan/__init__.py lines
607-632): textually identical trace-slot handling — save
`sys.gettrace()`, install the tracker, and restore the saved value in
the `finally` block on both the return and the raise path. -/
def scan.async_wrapper {T E A : Type} (slot : Option T) (tracker : T)
    (body : Option T → Except E A × Option T) :
    Except E A × Option T × List (Option T) :=
  let old_trace := slot
  let afterInstall : Option T := some tracker
  let (result, _slotAfterBody) := body afterInstall
  let afterFinally := old_trace
  (result, afterFinally, [afterInstall, old_trace])

/-- Message levels emitted through `Logger` by the decorators. -/
inductive LogLevel where
  | start | success | error | testResult
  deriving DecidableEq

/-- The `cronos` decorator's `sync_wrapper` (cronos/__init__.py lines
154-166): `try: res = func(...) finally: log('TEST-RESULT', ...);
return res`.  The timing message is emitted on both paths; on the raise
path the `return res` is never reached and the exception propagates. -/
def cronos.sync_wrapper {E A : Type} (body : Except E A) :
    Except E A × List LogLevel :=
  (body, [.testResult])

/-- The `cronos` decorator's `async_wrapper` (cronos/__init__.py lines
140-152): identical structure with an awaited body. -/
def cronos.async_wrapper {E A : Type} (body : Except E A) :
    Except E A × List LogLevel :=
  (body, [.testResult])

/-- The `log` decorator's `sync_wrapper` (logger/__init__.py lines
636-650): emit a start message, call the function; on success emit a
success message and return the result; on exception emit an error
message and fall off the end of the wrapper, returning Python `None`
(the exception is not re-raised). -/
def log.sync_wrapper {E A : Type} (body : Except E A) :
    List LogLevel × Option A :=
  match body with
  | .ok v => ([.start, .success], some v)
  | .error _ => ([.start, .error], none)

/-- The `log` decorator's `async_wrapper` (logger/__init__.py lines
617-633): emit a start message, await the function; on success emit a
success message and return the result; on exception emit an error
message and re-raise the same exception (`raise e`). -/
def log.async_wrapper {E A : Type} (body : Except E A) :
    List LogLevel × Except E A :=
  match body with
  | .ok v => ([.start, .success], .ok v)
  | .error e => ([.start, .error], .error e)

namespace Logger

/-- Default of the `debug` keyword of `Logger.log`
(logger/__init__.py line 316). -/
def debug_default : Bool := true

/-- Default of the `self_debug` keyword of `Logger.log`
(logger/__init__.py line 316). -/
def self_debug_default : Bool := true

/-- The terminal-output gate of `Logger.log` (logger/__init__.py line
427): `if not supress or debug or self_debug: print(...)`.  Python
parses this as `(not supress) or debug or self_debug`. -/
def terminal_print_condition (supress debug self_debug : Bool) : Bool :=
  (!supress) || debug || self_debug

end Logger

namespace Postman

/-- A `{"key": k, "value": v, "type": "text"}` header entry of a
recorded Postman request. -/
structure PHeader where
  key : String
  value : String
  deriving DecidableEq

/-- A `{"key": k, "value": str(v)}` query entry. -/
structure PQuery where
  key : String
  value : String
  deriving DecidableEq

/-- The `"url"` object built by `record_request`. -/
structure PUrl where
  raw : String
  protocol : String
  host : List String
  path : List String
  query : List PQuery
  deriving DecidableEq

/-- The optional `"body"` object: raw mode, the serialized payload, and
the `"language": "json"` option when the payload was a dict or list. -/
structure PBody where
  raw : List Char
  jsonLanguage : Bool
  deriving DecidableEq

/-- The `"request"` object of a collection item. -/
structure PRequest where
  method : String
  header : List PHeader
  url : PUrl
  body : Option PBody
  deriving DecidableEq

/-- One entry of the collection's `"item"` array.  `response` holds the
response examples (always created empty by `record_request`). -/
structure PItem where
  name : String
  request : PRequest
  response : List String
  deriving DecidableEq

/-- The collection document: the `info` header fields and the `item`
array (postman.py lines 91-99). -/
structure PCollection where
  infoName : String
  item : List PItem
  deriving DecidableEq

/-- A freshly initialized collection (`_init_collection` when no file
exists yet): empty `item` array. -/
def freshCollection (collection_name : String) : PCollection :=
  { infoName := collection_name, item := [] }

/-- Python `c.lower()` restricted to ASCII, which is all the code
compares against (`'host'`, `'content-length'`). -/
def pyLower (s : String) : String := s.toLower

/-- Python `s.strip("/")`: remove leading and trailing `'/'`
characters. -/
def pyStripSlashes (s : String) : String :=
  let chars := s.data.dropWhile (fun c => c = Char.ofNat 47)
  String.mk ((chars.reverse.dropWhile (fun c => c = Char.ofNat 47)).reverse)

/-- Python `s.split(sep)` for a non-empty separator (`"a/b".split("/")
== ["a", "b"]`, `"".split("/") == [""]`), which is also the behaviour
of `String.splitOn`. -/
def pySplit (s sep : String) : List String := s.splitOn sep

/-- Python `"://" in url`. -/
def hasScheme (url : String) : Bool := (pySplit url "://").length > 1

/-- `url.split("://")[0]` — the scheme part. -/
def schemeOf (url : String) : String :=
  match pySplit url "://" with
  | [] => ""
  | x :: _ => x

/-- `url.split("://")[1].split("/")[0]` — the host part. -/
def hostOf (url : String) : String :=
  match pySplit url "://" with
  | _ :: rest :: _ =>
      (match pySplit rest "/" with
       | [] => ""
       | h :: _ => h)
  | _ => ""

/-- A very small JSON serializer standing in for
`json.dumps(body, indent=2)`; only the produced characters differ from
CPython's (indentation and escaping are elided), which no claim
observes. -/
def jsonDumps (v : PyVal) : List Char := ScanPrinter.pyRepr v

/-- Python `str(body)` for non-dict/list bodies; again only used as an
opaque payload. -/
def pyStr (v : PyVal) : List Char :=
  match v with
  | .vStr s => s.data
  | other => ScanPrinter.pyRepr other

/-- Whether `isinstance(body, (dict, list))` holds. -/
def isDictOrList (v : PyVal) : Bool :=
  v.pyIsInstance .kDict || v.pyIsInstance .kList

/-- The upsert loop of `record_request` (postman.py lines 176-190):
scan `collection["item"]` for the first entry whose `"name"` equals the
new item's name; if found, replace that entry in place with the new
item, whose (empty) response array has been extended with the existing
entry's responses; if no entry matches, append the new item at the
end. -/
def upsertItem (item : PItem) : List PItem → List PItem
  | [] => [item]
  | existing :: rest =>
      if existing.name = item.name then
        { item with response := item.response ++ existing.response } :: rest
      else existing :: upsertItem item rest

/-- `PostmanRecorder.record_request` (postman.py lines 106-192).
Builds the item — name `f"{method} {path}"`, uppercased method, header
entries minus the `host`/`content-length` deny-list, the URL breakdown,
query pairs, an *empty* `response` array, and an optional body — then
upserts it into the collection's `item` array: if an item with the same
name exists, the new item's (empty) response array is extended with the
existing item's responses and the existing item is *replaced* in
place; otherwise the item is appended.  (`_save_collection` writes the
document to disk and does not change it.) -/
def record_request (coll : PCollection) (method url : String)
    (headers : List (String × String)) (query_params : List (String × String))
    (body : Option PyVal) (path : String) : PCollection :=
  let item : PItem :=
    { name := method ++ " " ++ path
      request :=
        { method := method.toUpper
          header := (headers.filter (fun kv =>
              pyLower kv.1 ≠ "host" ∧ pyLower kv.1 ≠ "content-length")).map
              (fun kv => { key := kv.1, value := kv.2 })
          url :=
            { raw := url
              protocol := if hasScheme url then schemeOf url else "http"
              host := [if hasScheme url then hostOf url else "localhost"]
              path := pySplit (pyStripSlashes path) "/"
              query := query_params.map (fun kv => { key := kv.1, value := kv.2 }) }
          body :=
            match body with
            | none => none
            | some b =>
                if isDictOrList b then some { raw := jsonDumps b, jsonLanguage := true }
                else some { raw := pyStr b, jsonLanguage := false } }
      response := [] }
  { coll with item := upsertItem item coll.item }

/-- One recorded call's arguments, for stating properties over whole
call sequences. -/
structure RecordCall where
  method : String
  url : String
  headers : List (String × String)
  query_params : List (String × String)
  body : Option PyVal
  path : String

/-- Fold a sequence of `record_request` calls over a collection. -/
def recordAll (coll : PCollection) (calls : List RecordCall) : PCollection :=
  calls.foldl
    (fun c r => record_request c r.method r.url r.headers r.query_params r.body r.path)
    coll

/-- The parameter kinds of `inspect.Parameter`. -/
inductive ParamKind where
  | posOnly | posOrKw | varPos | kwOnly | varKw
  deriving DecidableEq

/-- The numeric ordering CPython's `inspect` imposes on parameter
kinds (POSITIONAL_ONLY < POSITIONAL_OR_KEYWORD < VAR_POSITIONAL <
KEYWORD_ONLY < VAR_KEYWORD). -/
def ParamKind.order : ParamKind → Nat
  | .posOnly => 0
  | .posOrKw => 1
  | .varPos => 2
  | .kwOnly => 3
  | .varKw => 4

/-- An `inspect.Parameter`: name, kind, and annotation.  Annotations
are modelled by the name of the annotated type, `none` standing for
`inspect.Parameter.empty`; the only annotation the code compares
against is the FastAPI `Request` class. -/
structure PyParam where
  name : String
  kind : ParamKind
  annotation : Option String
  deriving DecidableEq

/-- The FastAPI `Request` annotation. -/
def RequestAnnotation : String := "fastapi.Request"

/-- The keyword-only `request: Request` parameter the decorator appends
(postman.py lines 336 and 387). -/
def requestParam : PyParam :=
  { name := "request", kind := .kwOnly, annotation := some RequestAnnotation }

/-- The kind-order half of the validation `inspect.Signature` performs
on its parameter list: adjacent kinds must appear in non-decreasing
order (CPython raises `ValueError: wrong parameter order` when a
parameter's kind is below the running maximum). -/
def kindsOrdered : List PyParam → Bool
  | [] => true
  | [_] => true
  | p :: q :: rest => (p.kind.order ≤ q.kind.order) && kindsOrdered (q :: rest)

/-- The duplicate-name half of the validation: parameter names must be
pairwise distinct. -/
def namesDistinct : List String → Bool
  | [] => true
  | n :: rest => (!rest.contains n) && namesDistinct rest

/-- The validity check `inspect.Signature` performs on its parameter
list: kinds in non-decreasing order and pairwise-distinct names (a
violation raises `ValueError`).  Default-value ordering is not
modelled — no claim involves defaults. -/
def SigOK (params : List PyParam) : Prop :=
  kindsOrdered params = true ∧ namesDistinct (params.map PyParam.name) = true

instance (params : List PyParam) : Decidable (SigOK params) :=
  inferInstanceAs (Decidable (_ = true ∧ _ = true))

/-- `sig.replace(parameters=params)` — rebuilding a signature
re-validates the parameter list and raises `ValueError` on a
violation. -/
def sig_replace (params : List PyParam) : Except String (List PyParam) :=
  if SigOK params then .ok params else .error "wrong parameter order or duplicate name"

/-- `has_request_param` (postman.py lines 281-284): some parameter is
annotated with `Request` or is named `request`. -/
def has_request_param (sig : List PyParam) : Bool :=
  sig.any (fun p => p.annotation = some RequestAnnotation || p.name = "request")

/-- The `__signature__` the `postman` decorator advertises on the
wrapper (postman.py lines 334-339 and 385-390): if the function has no
request parameter, append a keyword-only `request: Request` parameter
and rebuild the signature; otherwise keep the original signature
object unchanged.  An `Except.error` models the `ValueError` raised at
decoration time when the rebuilt parameter list is invalid. -/
def postman_signature (sig : List PyParam) : Except String (List PyParam) :=
  if has_request_param sig then .ok sig
  else sig_replace (sig ++ [requestParam])

end Postman

/-- The line number at which the tracker makes its first observation
inside the traced body: the first statement's line, or the `return`
statement's line for an empty body. -/
def firstObservedLine {V : Type} (body : List (Stmt V)) (retLine : Nat) : Nat :=
  match body with
  | [] => retLine
  | s :: _ => s.line

/-- The collection invariant of claim C8: every item's response array
is empty and item names are pairwise distinct. -/
def Postman.CollectionInv (coll : Postman.PCollection) : Prop :=
  (∀ it ∈ coll.item, it.response = ([] : List String)) ∧
    (coll.item.map Postman.PItem.name).Nodup

/-- Decidable equality of `Except` outcomes, used to evaluate the
signature model on concrete inputs. -/
instance {E A : Type} [DecidableEq E] [DecidableEq A] : DecidableEq (Except E A) :=
  fun x y =>
    match x, y with
    | .ok a, .ok b => decidable_of_iff (a = b) (by simp)
    | .error e, .error f => decidable_of_iff (e = f) (by simp)
    | .ok _, .error _ => isFalse (by simp)
    | .error _, .ok _ => isFalse (by simp)

/-- Helper: the last element of a list with a single element appended. -/
lemma getLast_append_singleton {A : Type} (xs : List A) (a : A) :
    (xs ++ [a]).getLast? = some a := by
  induction xs with
  | nil => rfl
  | cons x rest ih =>
      rw [List.cons_append, List.getLast?_cons, ih]
      cases rest <;> simp [List.getLastD]

/-- C2: for every call of a scan-wrapped function, synchronous or
asynchronous, the wrapper performs exactly two writes to the global
step-observer slot — installing its tracker and, in the
guaranteed-cleanup block, writing back the saved pre-call value — and
the slot's final value equals its exact pre-call value on every exit
path (the body's outcome, normal or raising, and the body's own slot
manipulation are universally quantified), so the previously installed
observer is restored, not cleared. -/
theorem scan_wrapper_restores_trace_slot {T E A : Type} (slot : Option T) (tracker : T)
    (body : Option T → Except E A × Option T) :
    ((scan.sync_wrapper slot tracker body).2.1 = slot ∧
      (scan.sync_wrapper slot tracker body).2.2 = [some tracker, slot]) ∧
    ((scan.async_wrapper slot tracker body).2.1 = slot ∧
      (scan.async_wrapper slot tracker body).2.2 = [some tracker, slot]) :=
  ⟨⟨rfl, rfl⟩, ⟨rfl, rfl⟩⟩

/-- C3 counterexample: the claim's label table is wrong on three
points.  The null value is labelled `"NoneType"` (the type's name),
not `"none"`; the fallback label is the bare class name, not the
fully-qualified one; and `frozenset` values get a size-annotated
`"frozenset[N]"` label rather than the fallback. -/
theorem get_type_name_counterexample :
    ScanPrinter.get_type_name .vNone = "NoneType" ∧
    ScanPrinter.get_type_name .vNone ≠ "none" ∧
    ScanPrinter.get_type_name (.vObj "mymod" "Widget") = "Widget" ∧
    ScanPrinter.get_type_name (.vObj "mymod" "Widget") ≠ "mymod.Widget" ∧
    ScanPrinter.get_type_name (.vFrozenset []) = "frozenset[0]" ∧
    ScanPrinter.get_type_name (.vFrozenset []) ≠ "frozenset" := by
  refine ⟨rfl, by decide, rfl, by decide, by decide, by decide⟩

/-- C3 (amended): `displayType` classifies booleans before integers —
a boolean is labelled `"bool"`, never `"int"`, and gets the boolean
colour, never the integer colour — and returns `"int"`, `"float"`,
`"str[N]"`, `"bool"`, `"NoneType"` for the null value, `"list[N]"`,
`"dict{N}"`, `"tuple[N]"`, `"set[N]"`, `"frozenset[N]"`, and falls
back to the value's bare (not module-qualified) category name for any
other value. -/
theorem get_type_name_labels :
    (∀ b, ScanPrinter.get_type_name (.vBool b) = "bool") ∧
    (∀ b, ScanPrinter.get_type_name (.vBool b) ≠ "int") ∧
    (∀ n, ScanPrinter.get_type_name (.vInt n) = "int") ∧
    (∀ s, ScanPrinter.get_type_name (.vFloat s) = "float") ∧
    (∀ s, ScanPrinter.get_type_name (.vStr s) = "str[" ++ toString s.length ++ "]") ∧
    ScanPrinter.get_type_name .vNone = "NoneType" ∧
    (∀ l, ScanPrinter.get_type_name (.vList l) = "list[" ++ toString l.length ++ "]") ∧
    (∀ l, ScanPrinter.get_type_name (.vDict l) = "dict\x7b" ++ toString l.length ++ "\x7d") ∧
    (∀ l, ScanPrinter.get_type_name (.vTuple l) = "tuple[" ++ toString l.length ++ "]") ∧
    (∀ l, ScanPrinter.get_type_name (.vSet l) = "set[" ++ toString l.length ++ "]") ∧
    (∀ l, ScanPrinter.get_type_name (.vFrozenset l) =
      "frozenset[" ++ toString l.length ++ "]") ∧
    (∀ m t, ScanPrinter.get_type_name (.vObj m t) = t) ∧
    (∀ b, TypeColors.get_color (.vBool b) = TypeColors.BOOL) ∧
    TypeColors.BOOL ≠ TypeColors.INT := by
  refine ⟨fun b => rfl, fun b => by cases b <;> decide, fun n => rfl, fun s => rfl,
    fun s => rfl, rfl, fun l => rfl, fun l => rfl, fun l => rfl, fun l => rfl,
    fun l => rfl, fun m t => rfl, fun b => rfl, by decide⟩

/-- C4: every decorator in the spec is return-value transparent.  The
scan wrappers (sync and async) return exactly the wrapped call's
outcome; the cronos wrappers return exactly the wrapped call's
outcome; and the lifecycle-logging wrappers return the wrapped call's
value whenever the call does not raise. -/
theorem decorators_return_value_transparent {T E A : Type} (slot : Option T) (tracker : T)
    (body : Option T → Except E A × Option T) (r : Except E A) (v : A) :
    (scan.sync_wrapper slot tracker body).1 = (body (some tracker)).1 ∧
    (scan.async_wrapper slot tracker body).1 = (body (some tracker)).1 ∧
    (cronos.sync_wrapper r).1 = r ∧
    (cronos.async_wrapper r).1 = r ∧
    (log.sync_wrapper (E := E) (.ok v)).2 = some v ∧
    (log.async_wrapper (E := E) (.ok v)).2 = .ok v :=
  ⟨rfl, rfl, rfl, rfl, rfl, rfl⟩

/-- C7: when the wrapped function raises, the synchronous
lifecycle-logging wrapper emits exactly one started and one error
message (no finished message) and returns the null result instead of
propagating; the asynchronous wrapper emits the same two messages and
re-raises the original failure. -/
theorem log_decorator_on_failure {E A : Type} (e : E) :
    log.sync_wrapper (A := A) (.error e) = ([.start, .error], none) ∧
    (log.sync_wrapper (A := A) (.error e)).1.count .start = 1 ∧
    (log.sync_wrapper (A := A) (.error e)).1.count .error = 1 ∧
    (log.sync_wrapper (A := A) (.error e)).1.count .success = 0 ∧
    log.async_wrapper (A := A) (.error e) = ([.start, .error], .error e) := by
  have h : (log.sync_wrapper (A := A) (.error e)).1 = [LogLevel.start, LogLevel.error] := rfl
  exact ⟨rfl, by rw [h]; decide, by rw [h]; decide, by rw [h]; decide, rfl⟩

/-- C9: `Logger.log` prints to the terminal whenever
`(not supress) or debug or self_debug` holds.  With the default flag
values `debug=True` and `self_debug=True` the message is printed even
when `supress=True`; terminal output is skipped exactly when `supress`
is true and both `debug` and `self_debug` are false. -/
theorem logger_terminal_print_gate :
    (∀ s, Logger.terminal_print_condition s Logger.debug_default
      Logger.self_debug_default = true) ∧
    (∀ s d c, Logger.terminal_print_condition s d c = false ↔
      s = true ∧ d = false ∧ c = false) := by
  decide

/-- C5 counterexample: with the cap `maxLen = 0` the Python slice
`repr_val[:max_len - 1]` is `repr_val[:-1]`, which keeps all but the
last character, so the output exceeds the cap: the value `"ab"` has
the 4-character form `'ab'` and formats to a 4-character result. -/
theorem format_value_counterexample :
    (ScanPrinter.format_value (.vStr "ab") 0).length = 4 ∧
    ¬ ((ScanPrinter.format_value (.vStr "ab") 0).length ≤ 0) := by
  have h : ScanPrinter.pyRepr (.vStr "ab") =
      Char.ofNat 39 :: "ab".data ++ [Char.ofNat 39] := by
    simp [ScanPrinter.pyRepr]
  unfold ScanPrinter.format_value
  rw [h]
  decide

/-- C5 (amended): for every value and every cap `maxLen ≥ 1`, the
`displayText` output has length at most `maxLen`, and whenever the
value's textual form exceeds `maxLen` characters the output ends with
the (single appended) ellipsis glyph. -/
theorem format_value_cap (v : PyVal) (m : Int) (h : 1 ≤ m) :
    ((ScanPrinter.format_value v m).length : Int) ≤ m ∧
    (((ScanPrinter.pyRepr v).length : Int) > m →
      (ScanPrinter.format_value v m).getLast? = some ScanPrinter.ELLIPSIS) := by
  unfold ScanPrinter.format_value
  by_cases hc : ((ScanPrinter.pyRepr v).length : Int) > m
  · rw [if_pos hc]
    constructor
    · unfold ScanPrinter.pySliceTo
      rw [if_neg (by omega)]
      simp only [List.length_append, List.length_take, List.length_singleton]
      push_cast
      omega
    · intro _
      exact getLast_append_singleton _ _
  · rw [if_neg hc]
    exact ⟨by omega, fun hx => absurd hx hc⟩

/-- C5 witness: the amended theorem applied at `"abcdef"` with cap 4. -/
theorem format_value_cap_witness :
    ((ScanPrinter.format_value (.vStr "abcdef") 4).length : Int) ≤ 4 ∧
    (((ScanPrinter.pyRepr (.vStr "abcdef")).length : Int) > 4 →
      (ScanPrinter.format_value (.vStr "abcdef") 4).getLast? =
        some ScanPrinter.ELLIPSIS) :=
  format_value_cap (.vStr "abcdef") 4 (by decide)

/-- C6 counterexample: the tracing step filter excludes only names
starting with an underscore — it does not exclude the implicit
receiver parameters.  A traced step whose locals contain `self` emits
a binding event for `self`. -/
theorem trace_step_emits_self :
    trace_lines_step (V := Int) [] [("self", 7)] 2 = [.newVar "self" 7 2] ∧
    (BindingEvent.newVar "self" (7 : Int) 2).name = "self" := by
  decide

/-- C6 (amended): a binding event emitted at a traced execution step
never carries a name beginning with an underscore (that is the only
filter `trace_lines` applies — `self`/`cls` are not excluded there),
while the `locals_snapshot` printer filter excludes both
underscore-prefixed names and the implicit receiver parameters
`self`/`cls`. -/
theorem trace_step_and_snapshot_filters {V : Type} [inst : DecidableEq V]
    (prev cur : PyLocals V) (l : Nat) (e : BindingEvent V)
    (he : e ∈ trace_lines_step prev cur l)
    (lv : PyLocals V) (p : String × V)
    (hp : p ∈ locals_snapshot_filter lv) :
    (pyStartsWithUnderscore e.name = false) ∧
    (pyStartsWithUnderscore p.1 = false ∧ p.1 ≠ "self" ∧ p.1 ≠ "cls") := by
  constructor
  · unfold trace_lines_step at he
    rcases List.mem_filterMap.mp he with ⟨nv, _hnv, hf⟩
    by_cases hu : pyStartsWithUnderscore nv.1
    · rw [if_pos hu] at hf
      cases hf
    · rw [if_neg hu] at hf
      split at hf
      · cases hf
        simpa [BindingEvent.name] using hu
      · split at hf
        · cases hf
          simpa [BindingEvent.name] using hu
        · cases hf
  · unfold locals_snapshot_filter at hp
    have hcond := List.of_mem_filter hp
    simp only [Bool.and_eq_true, Bool.not_eq_true', decide_eq_true_eq,
      Bool.or_eq_true, not_or, Bool.not_eq_true] at hcond
    refine ⟨hcond.1, ?_, ?_⟩
    · intro hs
      rcases hcond with ⟨_, h2⟩
      simp [hs] at h2
    · intro hs
      rcases hcond with ⟨_, h2⟩
      simp [hs] at h2

/-- C6 witness: the amended filter theorem applied to a concrete step
and a concrete snapshot. -/
theorem trace_step_and_snapshot_filters_witness :
    (pyStartsWithUnderscore (BindingEvent.newVar "x" (0 : Int) 1).name = false) ∧
    (pyStartsWithUnderscore ("y", (0 : Int)).1 = false ∧ ("y", (0 : Int)).1 ≠ "self" ∧
      ("y", (0 : Int)).1 ≠ "cls") :=
  trace_step_and_snapshot_filters [] [("x", 0)] 1 (.newVar "x" 0 1) (by decide)
    [("y", 0)] ("y", 0) (by decide)

/-- Helper: in a kind-ordered parameter list ending at `a`, every
earlier parameter's kind order is at most the order of `a`. -/
lemma kindsOrdered_le_last (l : List Postman.PyParam) (a : Postman.PyParam)
    (h : Postman.kindsOrdered (l ++ [a]) = true) :
    ∀ x ∈ l, x.kind.order ≤ a.kind.order := by
  induction l with
  | nil => intro x hx; cases hx
  | cons p rest ih =>
      intro x hx
      cases rest with
      | nil =>
          have hpa : p.kind.order ≤ a.kind.order := by
            simp only [List.cons_append, List.nil_append, Postman.kindsOrdered,
              Bool.and_eq_true, decide_eq_true_eq] at h
            exact h.1
          rcases List.mem_singleton.mp hx with rfl
          exact hpa
      | cons q rest2 =>
          simp only [List.cons_append, Postman.kindsOrdered, Bool.and_eq_true,
            decide_eq_true_eq] at h
          have htail := ih (by simpa [Postman.kindsOrdered] using h.2)
          rcases List.mem_cons.mp hx with rfl | hx2
          · have hq := htail q (by simp)
            omega
          · exact htail x hx2

/-- Helper: appending the keyword-only `request` parameter (kind order
3) keeps the kinds ordered, provided no existing parameter has a kind
of larger order (that is, no var-keyword parameter). -/
lemma kindsOrdered_append_request (l : List Postman.PyParam)
    (h : Postman.kindsOrdered l = true)
    (hle : ∀ x ∈ l, x.kind.order ≤ 3) :
    Postman.kindsOrdered (l ++ [Postman.requestParam]) = true := by
  induction l with
  | nil => rfl
  | cons p rest ih =>
      cases rest with
      | nil =>
          have := hle p (by simp)
          simp only [List.cons_append, List.nil_append, Postman.kindsOrdered,
            Bool.and_eq_true, decide_eq_true_eq]
          exact ⟨by simpa [Postman.requestParam, Postman.ParamKind.order] using this,
            trivial⟩
      | cons q rest2 =>
          simp only [Postman.kindsOrdered, Bool.and_eq_true, decide_eq_true_eq] at h
          have htail := ih h.2 (fun x hx => hle x (List.mem_cons_of_mem _ hx))
          simp only [List.cons_append, Postman.kindsOrdered, Bool.and_eq_true,
            decide_eq_true_eq] at htail ⊢
          exact ⟨h.1, htail⟩

/-- Helper: membership in a list with one appended element. -/
lemma contains_append_one (l : List String) (a n : String) :
    (l ++ [n]).contains a = (l.contains a || decide (a = n)) := by
  induction l with
  | nil => simp [List.contains_cons]
  | cons b rest ih => simp [List.contains_cons, ih, Bool.or_assoc]

/-- Helper: appending a fresh name keeps the names pairwise
distinct. -/
lemma namesDistinct_append (l : List String) (n : String)
    (h : Postman.namesDistinct l = true) (hn : l.contains n = false) :
    Postman.namesDistinct (l ++ [n]) = true := by
  induction l with
  | nil => rfl
  | cons m rest ih =>
      simp only [Postman.namesDistinct, Bool.and_eq_true, Bool.not_eq_true'] at h
      simp only [List.contains_cons, Bool.or_eq_false_iff] at hn
      have htail := ih h.2 hn.2
      simp only [List.cons_append, Postman.namesDistinct, Bool.and_eq_true,
        Bool.not_eq_true']
      refine ⟨?_, htail⟩
      show (rest ++ [n]).contains m = false
      rw [contains_append_one, Bool.or_eq_false_iff]
      refine ⟨h.1, ?_⟩
      cases hd : decide (m = n)
      · rfl
      · have hmn : m = n := of_decide_eq_true hd
        subst hmn
        simp at hn

/-- Helper: when `has_request_param` is false, no parameter is named
`request`. -/
lemma request_not_mem_names (l : List Postman.PyParam)
    (h : Postman.has_request_param l = false) :
    (l.map Postman.PyParam.name).contains "request" = false := by
  induction l with
  | nil => rfl
  | cons p rest ih =>
      unfold Postman.has_request_param at h ih
      simp only [List.any_cons, Bool.or_eq_false_iff, decide_eq_false_iff_not] at h
      simp only [List.map_cons, List.contains_cons, Bool.or_eq_false_iff]
      refine ⟨?_, ih h.2⟩
      cases hb : "request" == p.name
      · rfl
      · exact absurd (eq_of_beq hb).symm h.1.2

/-- C10 counterexample: a function whose only parameter is a
var-keyword parameter (`**kwargs`) has no request parameter, yet the
decorator does not advertise the extended signature — rebuilding the
signature with a keyword-only parameter after the var-keyword
parameter fails validation (a `ValueError` at decoration time). -/
theorem postman_signature_counterexample :
    Postman.has_request_param [⟨"kwargs", .varKw, none⟩] = false ∧
    Postman.postman_signature [⟨"kwargs", .varKw, none⟩] =
      .error "wrong parameter order or duplicate name" ∧
    Postman.postman_signature [⟨"kwargs", .varKw, none⟩] ≠
      .ok ([⟨"kwargs", .varKw, none⟩] ++ [Postman.requestParam]) := by
  decide

/-- C10 (amended): for every function whose (valid) signature has no
parameter named `request` and none annotated with the Request type,
the postman decorator advertises the signature extended with one
keyword-only `request: Request` parameter appended at the end —
provided the signature has no var-keyword parameter; with a
var-keyword parameter present the decorator instead fails signature
validation at decoration time.  When the function already has a
request parameter, the advertised signature is the original signature
unchanged. -/
theorem postman_signature_extension (l : List Postman.PyParam) (h : Postman.SigOK l) :
    (Postman.has_request_param l = true → Postman.postman_signature l = .ok l) ∧
    (Postman.has_request_param l = false → (∀ p ∈ l, p.kind ≠ .varKw) →
      Postman.postman_signature l = .ok (l ++ [Postman.requestParam])) ∧
    (Postman.has_request_param l = false → (∃ p ∈ l, p.kind = .varKw) →
      Postman.postman_signature l =
        .error "wrong parameter order or duplicate name") := by
  refine ⟨?_, ?_, ?_⟩
  · intro h1
    simp [Postman.postman_signature, h1]
  · intro h1 h2
    have hok : Postman.SigOK (l ++ [Postman.requestParam]) := by
      constructor
      · refine kindsOrdered_append_request l h.1 (fun x hx => ?_)
        have := h2 x hx
        cases hk : x.kind <;> simp_all [Postman.ParamKind.order]
      · rw [List.map_append]
        exact namesDistinct_append _ _ h.2 (request_not_mem_names l h1)
    simp [Postman.postman_signature, h1, Postman.sig_replace, hok]
  · rintro h1 ⟨p, hp, hkind⟩
    have hbad : ¬ Postman.SigOK (l ++ [Postman.requestParam]) := by
      rintro ⟨hchain, _⟩
      have := kindsOrdered_le_last l Postman.requestParam hchain p hp
      rw [hkind] at this
      simp [Postman.ParamKind.order, Postman.requestParam] at this
    simp [Postman.postman_signature, h1, Postman.sig_replace, hbad]

/-- C10 witness: the amended theorem applied to a one-parameter
signature without a request parameter. -/
theorem postman_signature_extension_witness :
    Postman.postman_signature [⟨"a", .posOrKw, none⟩] =
      .ok ([(⟨"a", .posOrKw, none⟩ : Postman.PyParam)] ++ [Postman.requestParam]) :=
  (postman_signature_extension [⟨"a", .posOrKw, none⟩] (by decide)).2.1 (by decide)
    (by decide)

/-- Helper: every item in an upserted list has an empty response
array, provided the incoming item and all existing items do (the
replacement extends the incoming empty array with the existing — also
empty — one). -/
lemma upsertItem_responses (item : Postman.PItem) (hitem : item.response = [])
    (l : List Postman.PItem) (hresp : ∀ it ∈ l, it.response = []) :
    ∀ it ∈ Postman.upsertItem item l, it.response = [] := by
  induction l with
  | nil =>
      intro it hit
      rcases List.mem_singleton.mp hit with rfl
      exact hitem
  | cons ex rest ih =>
      intro it hit
      unfold Postman.upsertItem at hit
      by_cases hname : ex.name = item.name
      · rw [if_pos hname] at hit
        rcases List.mem_cons.mp hit with rfl | h2
        · simp [hitem, hresp ex (by simp)]
        · exact hresp it (List.mem_cons_of_mem _ h2)
      · rw [if_neg hname] at hit
        rcases List.mem_cons.mp hit with rfl | h2
        · exact hresp it (by simp)
        · exact ih (fun x hx => hresp x (List.mem_cons_of_mem _ hx)) it h2

/-- Helper: a name occurring after an upsert occurred before or is the
upserted item's name. -/
lemma mem_upsertItem_names (item : Postman.PItem) (l : List Postman.PItem) (x : String)
    (hx : x ∈ (Postman.upsertItem item l).map Postman.PItem.name) :
    x ∈ l.map Postman.PItem.name ∨ x = item.name := by
  induction l with
  | nil =>
      right
      simpa [Postman.upsertItem] using hx
  | cons ex rest ih =>
      unfold Postman.upsertItem at hx
      by_cases hname : ex.name = item.name
      · rw [if_pos hname] at hx
        rcases List.mem_map.mp hx with ⟨it, hit, hit2⟩
        rcases List.mem_cons.mp hit with rfl | h2
        · right; exact hit2.symm ▸ rfl
        · left
          exact List.mem_cons_of_mem _ (hit2 ▸ List.mem_map_of_mem _ h2)
      · rw [if_neg hname] at hx
        rcases List.mem_map.mp hx with ⟨it, hit, hit2⟩
        rcases List.mem_cons.mp hit with rfl | h2
        · left; exact hit2 ▸ List.mem_map_of_mem _ (by simp)
        · rcases ih (hit2 ▸ List.mem_map_of_mem _ h2) with h3 | h3
          · left; exact List.mem_cons_of_mem _ h3
          · right; exact h3

/-- Helper: an upsert keeps item names pairwise distinct. -/
lemma upsertItem_names_nodup (item : Postman.PItem) (l : List Postman.PItem)
    (hnd : (l.map Postman.PItem.name).Nodup) :
    ((Postman.upsertItem item l).map Postman.PItem.name).Nodup := by
  induction l with
  | nil => simp [Postman.upsertItem]
  | cons ex rest ih =>
      simp only [List.map_cons, List.nodup_cons] at hnd
      unfold Postman.upsertItem
      by_cases hname : ex.name = item.name
      · rw [if_pos hname]
        simp only [List.map_cons, List.nodup_cons]
        exact ⟨by rw [← hname]; exact hnd.1, hnd.2⟩
      · rw [if_neg hname]
        simp only [List.map_cons, List.nodup_cons]
        refine ⟨?_, ih hnd.2⟩
        intro hmem
        rcases mem_upsertItem_names item rest ex.name hmem with h3 | h3
        · exact hnd.1 h3
        · exact hname h3

/-- Helper: `record_request` preserves the collection invariant. -/
lemma record_request_preserves_inv (coll : Postman.PCollection)
    (h : Postman.CollectionInv coll) (m u : String)
    (hs : List (String × String)) (q : List (String × String))
    (b : Option PyVal) (p : String) :
    Postman.CollectionInv (Postman.record_request coll m u hs q b p) := by
  unfold Postman.record_request Postman.CollectionInv
  exact ⟨upsertItem_responses _ rfl _ h.1, upsertItem_names_nodup _ _ h.2⟩

/-- Helper: a whole sequence of `record_request` calls preserves the
collection invariant. -/
lemma recordAll_preserves_inv (calls : List Postman.RecordCall)
    (coll : Postman.PCollection) (h : Postman.CollectionInv coll) :
    Postman.CollectionInv (Postman.recordAll coll calls) := by
  induction calls generalizing coll with
  | nil => exact h
  | cons c rest ih =>
      exact ih _ (record_request_preserves_inv coll h c.method c.url c.headers
        c.query_params c.body c.path)

/-- Helper: a list whose mapped names are pairwise distinct has at most
one element with any given name. -/
lemma filter_name_length_le_one (l : List Postman.PItem)
    (hnd : (l.map Postman.PItem.name).Nodup) (x : String) :
    (l.filter (fun it => it.name = x)).length ≤ 1 := by
  induction l with
  | nil => simp
  | cons a rest ih =>
      simp only [List.map_cons, List.nodup_cons] at hnd
      by_cases hx : a.name = x
      · rw [List.filter_cons_of_pos (by simpa using hx)]
        have hnil : rest.filter (fun it => decide (it.name = x)) = [] := by
          rw [List.filter_eq_nil_iff]
          intro bItem hb
          simp only [decide_eq_true_eq]
          intro hbx
          exact hnd.1 (hx ▸ hbx ▸ List.mem_map_of_mem _ hb)
        simp [hnil]
      · rw [List.filter_cons_of_neg (by simpa using hx)]
        exact ih hnd.2

/-- C8: after any sequence of `record_request` calls on a freshly
initialized collection, every item's response array is empty, item
names (`f"{method} {path}"`) are pairwise distinct — a repeated
recording for the same method+path pair replaces the existing entry
rather than appending a duplicate — and hence for every method+path
pair the collection holds at most one item. -/
theorem record_request_collection_invariant (s : String)
    (calls : List Postman.RecordCall) :
    (∀ it ∈ (Postman.recordAll (Postman.freshCollection s) calls).item,
      it.response = ([] : List String)) ∧
    ((Postman.recordAll (Postman.freshCollection s) calls).item.map
      Postman.PItem.name).Nodup ∧
    (∀ m p : String,
      ((Postman.recordAll (Postman.freshCollection s) calls).item.filter
        (fun it => it.name = m ++ " " ++ p)).length ≤ 1) := by
  have hinv := recordAll_preserves_inv calls (Postman.freshCollection s)
    ⟨fun it hit => absurd hit (List.not_mem_nil it), by simp [Postman.freshCollection]⟩
  exact ⟨hinv.1, hinv.2, fun m p => filter_name_length_le_one _ hinv.2 _⟩

/-- Helper: in a locals dict with distinct keys, lookup of a member
entry's key finds that entry's value. -/
lemma pyLookup_of_mem {V : Type} (d : PyLocals V) (hd : (pyKeys d).Nodup)
    (nv : String × V) (hnv : nv ∈ d) : pyLookup d nv.1 = some nv.2 := by
  induction d with
  | nil => cases hnv
  | cons kv rest ih =>
      simp only [pyKeys, List.map_cons, List.nodup_cons] at hd
      unfold pyLookup
      rcases List.mem_cons.mp hnv with rfl | h2
      · rw [if_pos rfl]
      · by_cases hk : kv.1 = nv.1
        · exact absurd (hk ▸ List.mem_map_of_mem Prod.fst h2) hd.1
        · rw [if_neg hk]
          exact ih hd.2 h2

/-- Helper: lookup of an absent key yields `None`. -/
lemma pyLookup_not_mem {V : Type} (d : PyLocals V) (n : String)
    (hn : n ∉ pyKeys d) : pyLookup d n = none := by
  induction d with
  | nil => rfl
  | cons kv rest ih =>
      simp only [pyKeys, List.map_cons, List.mem_cons, not_or] at hn
      unfold pyLookup
      rw [if_neg (fun h => hn.1 h.symm)]
      exact ih hn.2

/-- Helper: setting an absent key appends the entry at the end
(CPython dict insertion order). -/
lemma pyDictSet_fresh {V : Type} (d : PyLocals V) (n : String) (v : V)
    (hn : n ∉ pyKeys d) : pyDictSet d n v = d ++ [(n, v)] := by
  induction d with
  | nil => rfl
  | cons kv rest ih =>
      simp only [pyKeys, List.map_cons, List.mem_cons, not_or] at hn
      unfold pyDictSet
      rw [if_neg (fun h => hn.1 h.symm)]
      rw [List.cons_append, ih hn.2]

/-- Helper: a trace step whose current locals equal the previous
snapshot (with distinct keys) emits no events. -/
lemma trace_lines_step_self {V : Type} [inst : DecidableEq V] (d : PyLocals V)
    (hd : (pyKeys d).Nodup) (l : Nat) : trace_lines_step d d l = [] := by
  unfold trace_lines_step
  rw [List.filterMap_eq_nil_iff]
  intro nv hnv
  by_cases hu : pyStartsWithUnderscore nv.1
  · rw [if_pos hu]
  · rw [if_neg hu, pyLookup_of_mem d hd nv hnv]
    simp

/-- Helper: a trace step that observes exactly one fresh binding emits
exactly one New event carrying the observed line number. -/
lemma trace_lines_step_new {V : Type} [inst : DecidableEq V] (d : PyLocals V)
    (n : String) (v : V) (l : Nat) (hd : (pyKeys d).Nodup) (hn : n ∉ pyKeys d)
    (hu : pyStartsWithUnderscore n = false) :
    trace_lines_step d (pyDictSet d n v) l = [.newVar n v l] := by
  rw [pyDictSet_fresh d n v hn]
  have hself := trace_lines_step_self d hd l
  unfold trace_lines_step at hself ⊢
  rw [List.filterMap_append, hself, List.nil_append]
  simp [hu, pyLookup_not_mem d n hn]

/-- Helper: the very first trace step (empty previous snapshot)
reports every non-underscore binding as New. -/
lemma trace_lines_step_from_empty {V : Type} [inst : DecidableEq V]
    (cur : PyLocals V) (l : Nat) :
    trace_lines_step [] cur l = cur.filterMap (fun nv =>
      if pyStartsWithUnderscore nv.1 then none
      else some (BindingEvent.newVar nv.1 nv.2 l)) := rfl

/-- Helper: running the tracker over the steps of a straight-line body
from its starting locals emits exactly one New event per assignment,
in source order, each carrying the line number of the *following*
step (the next statement's line, or the return line for the last
assignment). -/
lemma traceRun_steps {V : Type} [inst : DecidableEq V] (body : List (Stmt V)) :
    ∀ (d : PyLocals V) (retLine : Nat),
      (pyKeys d).Nodup →
      (∀ s ∈ body, s.name ∉ pyKeys d ∧ pyStartsWithUnderscore s.name = false) →
      (body.map Stmt.name).Nodup →
      traceRun d (pyStepEvents d body retLine) =
        List.zipWith (fun s nl => BindingEvent.newVar s.name s.value nl) body
          ((body.map Stmt.line).drop 1 ++ [retLine]) := by
  induction body with
  | nil =>
      intro d retLine hd _ _
      simp only [pyStepEvents, traceRun]
      rw [trace_lines_step_self d hd]
      simp
  | cons s rest ih =>
      intro d retLine hd hb hn
      have hs := hb s (by simp)
      have hkeys2 : pyKeys (pyDictSet d s.name s.value) = pyKeys d ++ [s.name] := by
        rw [pyDictSet_fresh d _ _ hs.1]
        simp [pyKeys]
      have hd2 : (pyKeys (pyDictSet d s.name s.value)).Nodup := by
        rw [hkeys2]
        exact List.Nodup.append hd (by simp)
          (by intro a ha hb2
              rcases List.mem_singleton.mp hb2 with rfl
              exact hs.1 ha)
      simp only [List.map_cons, List.nodup_cons] at hn
      simp only [pyStepEvents, traceRun]
      rw [trace_lines_step_self d hd, List.nil_append]
      cases rest with
      | nil =>
          simp only [pyStepEvents, traceRun]
          rw [trace_lines_step_new d s.name s.value retLine hd hs.1 hs.2,
            trace_lines_step_self _ hd2]
          simp
      | cons s2 rest2 =>
          have hb2 : ∀ t ∈ s2 :: rest2,
              t.name ∉ pyKeys (pyDictSet d s.name s.value) ∧
                pyStartsWithUnderscore t.name = false := by
            intro t ht
            have hbt := hb t (List.mem_cons_of_mem _ ht)
            refine ⟨?_, hbt.2⟩
            rw [hkeys2]
            intro hmem
            rcases List.mem_append.mp hmem with h3 | h3
            · exact hbt.1 h3
            · rcases List.mem_singleton.mp h3 with h4
              exact hn.1 (h4 ▸ List.mem_map_of_mem Stmt.name ht)
          have haux := ih (pyDictSet d s.name s.value) retLine hd2 hb2 hn.2
          simp only [pyStepEvents, traceRun] at haux
          rw [trace_lines_step_self _ hd2, List.nil_append] at haux
          simp only [pyStepEvents, traceRun]
          rw [trace_lines_step_new d s.name s.value s2.line hd hs.1 hs.2, haux]
          simp

/-- C1 counterexample: the traced function
`def f(): x = 1 (line 2); x = 1 (line 3); return (line 4)` has two
local-variable assignment statements, yet the scan emits exactly one
binding event — the second assignment rebinds an equal value and is
silent — and that single event carries line 3 (the step at which the
line-2 assignment was observed), not the assignment's own line 2: no
emitted event carries line 2 at all. -/
theorem scan_events_counterexample :
    scanEvents (V := Int) [] [⟨2, "x", 1⟩, ⟨3, "x", 1⟩] 4 = [.newVar "x" 1 3] ∧
    ¬ (2 ≤ (scanEvents (V := Int) [] [⟨2, "x", 1⟩, ⟨3, "x", 1⟩] 4).length) ∧
    (∀ e ∈ scanEvents (V := Int) [] [⟨2, "x", 1⟩, ⟨3, "x", 1⟩] 4, e.line ≠ 2) := by
  decide

/-- C1 (amended): for a traced straight-line function whose N
assignment statements bind pairwise-distinct, non-underscore names
distinct from the parameters, a call through the scan decorator emits
the parameters as New events at the first observed line, followed by
exactly one New event per assignment statement, in source order; each
assignment's event carries the line number of the trace step at which
the new binding was observed — the next statement's line (or the
return line for the last assignment) — not the assignment's own
line. -/
theorem scan_events_per_assignment {V : Type} [inst : DecidableEq V]
    (params : PyLocals V) (body : List (Stmt V)) (retLine : Nat)
    (hp : (pyKeys params).Nodup)
    (hb : ∀ s ∈ body, s.name ∉ pyKeys params ∧ pyStartsWithUnderscore s.name = false)
    (hn : (body.map Stmt.name).Nodup) :
    scanEvents params body retLine =
      params.filterMap (fun nv =>
        if pyStartsWithUnderscore nv.1 then none
        else some (BindingEvent.newVar nv.1 nv.2 (firstObservedLine body retLine)))
      ++ List.zipWith (fun s nl => BindingEvent.newVar s.name s.value nl) body
          ((body.map Stmt.line).drop 1 ++ [retLine]) := by
  unfold scanEvents
  cases body with
  | nil =>
      simp only [pyStepEvents, traceRun, firstObservedLine]
      rw [trace_lines_step_from_empty, trace_lines_step_self params hp]
      simp
  | cons s rest =>
      have haux := traceRun_steps (s :: rest) params retLine hp hb hn
      simp only [pyStepEvents, traceRun] at haux
      rw [trace_lines_step_self params hp, List.nil_append] at haux
      simp only [pyStepEvents, traceRun, firstObservedLine]
      rw [trace_lines_step_from_empty, haux]

/-- C1 witness: the amended theorem applied to a one-parameter,
one-assignment function (`x` is a parameter; `y = 2` at line 3; return
at line 4). -/
theorem scan_events_per_assignment_witness :
    scanEvents (V := Int) [("x", 1)] [⟨3, "y", 2⟩] 4 =
      List.filterMap (fun nv =>
        if pyStartsWithUnderscore nv.1 then none
        else some (BindingEvent.newVar nv.1 nv.2
          (firstObservedLine [(⟨3, "y", 2⟩ : Stmt Int)] 4))) [("x", (1 : Int))]
      ++ List.zipWith (fun s nl => BindingEvent.newVar s.name s.value nl)
          [(⟨3, "y", 2⟩ : Stmt Int)]
          (([(⟨3, "y", 2⟩ : Stmt Int)].map Stmt.line).drop 1 ++ [4]) :=
  scan_events_per_assignment [("x", 1)] [⟨3, "y", 2⟩] 4 (by decide) (by decide)
    (by decide)

/-- C3 witness: the amended label theorem applied to `True`. -/
theorem get_type_name_labels_witness :
    ScanPrinter.get_type_name (.vBool true) ≠ "int" :=
  get_type_name_labels.2.1 true

/-- C9 witness: the print-gate theorem applied to `supress=True` with
the default debug flags. -/
theorem logger_terminal_print_gate_witness :
    Logger.terminal_print_condition true Logger.debug_default
      Logger.self_debug_default = true :=
  logger_terminal_print_gate.1 true

/-- C8 witness: the collection invariant applied to a single recorded
`GET /items/42` call. -/
theorem record_request_collection_invariant_witness :
    ((Postman.recordAll (Postman.freshCollection "c")
        [⟨"GET", "http://h/items/42?q=s", [], [("q", "s")], none, "/items/42"⟩]).item.filter
      (fun it => it.name = "GET" ++ " " ++ "/items/42")).length ≤ 1 :=
  (record_request_collection_invariant "c"
    [⟨"GET", "http://h/items/42?q=s", [], [("q", "s")], none, "/items/42"⟩]).2.2
    "GET" "/items/42"
